import Mathlib

/-!
Shallow embedding of the semantic-analysis and dependency-resolution engine of
the stextools repository (src/stextools/stexdoc.py and src/stextools/mathhub.py).

Python conventions are modelled as follows: machine floats used only as
modification timestamps become Nat (only their order is observed); fallible
code returns Except PyErr; Python dicts become association lists preserving
insertion order; the filesystem and the upstream LaTeX parser (external
collaborators per the spec) are modelled as an explicit Disk record carrying
the discoverable paths, manifests, modification times and parse results.
-/

namespace Stextools

/-- Python exception outcomes that the embedded code can raise. -/
inductive PyErr where
  | typeError
  | runtimeError
  | attributeError
  | indexError
  | assertionError
  | fileNotFound
  | internalError
  deriving DecidableEq, Repr

/-- Dependency (stexdoc.py lines 20-30): one edge from a module/document to a
required file/module/archive.  Ranges are (start, stop) character offsets. -/
structure Dependency where
  archive : String
  file : Option String := none
  module_name : Option String := none
  is_lib : Bool := false
  is_use : Bool := false
  target_no_tex : Bool := false
  valid_range : Option (Nat × Nat) := none
  intro_range : Option (Nat × Nat) := none
  deriving DecidableEq, Repr

/-- Symbol (stexdoc.py lines 33-37): a named concept with accumulated
verbalizations and an optional declaration span. -/
structure Symbol where
  name : String
  verbalizations : List (String × Nat × Nat) := []
  decl_def : Option (Nat × Nat) := none
  deriving DecidableEq, Repr

/-- ModuleInfo (stexdoc.py lines 40-47): a node of the per-document module
tree.  Declared as an inductive because it is recursive. -/
inductive ModuleInfo where
  | mk (name : String) (dependencies : List Dependency) (symbols : List Symbol)
      (modules : List ModuleInfo)
  deriving Repr

def ModuleInfo.name : ModuleInfo → String
  | .mk n _ _ _ => n

def ModuleInfo.dependencies : ModuleInfo → List Dependency
  | .mk _ d _ _ => d

def ModuleInfo.symbols : ModuleInfo → List Symbol
  | .mk _ _ s _ => s

def ModuleInfo.modules : ModuleInfo → List ModuleInfo
  | .mk _ _ _ m => m

def ModuleInfo.withDependencies (m : ModuleInfo) (d : List Dependency) : ModuleInfo :=
  .mk m.name d m.symbols m.modules

def ModuleInfo.withSymbols (m : ModuleInfo) (s : List Symbol) : ModuleInfo :=
  .mk m.name m.dependencies s m.modules

def ModuleInfo.withModules (m : ModuleInfo) (ms : List ModuleInfo) : ModuleInfo :=
  .mk m.name m.dependencies m.symbols ms

/-- DocInfo (stexdoc.py lines 60-65): the per-document analysis result. -/
structure DocInfo where
  last_modified : Nat
  dependencies : List Dependency := []
  modules : List ModuleInfo := []
  deriving Repr

/-- ModuleInfo.flattened_dependencies (stexdoc.py lines 49-52): the module's
own dependencies followed by each immediate submodule's own dependencies
(generator loop rendered as a fold). -/
def ModuleInfo.flattened_dependencies (m : ModuleInfo) : List Dependency :=
  m.dependencies ++ m.modules.foldr (fun sm acc => sm.dependencies ++ acc) []

/-- DocInfo.flattened_dependencies (stexdoc.py lines 69-72). -/
def DocInfo.flattened_dependencies (d : DocInfo) : List Dependency :=
  d.dependencies ++ d.modules.foldr (fun sm acc => sm.dependencies ++ acc) []

mutual

/-- ModuleInfo.iter_modules (stexdoc.py lines 54-57): yield self, then
recursively each submodule's modules, depth first. -/
def ModuleInfo.iter_modules : ModuleInfo → List ModuleInfo
  | .mk n d s ms => .mk n d s ms :: iterModulesList ms

/-- Helper for the generator loop in ModuleInfo.iter_modules. -/
def iterModulesList : List ModuleInfo → List ModuleInfo
  | [] => []
  | m :: ms => m.iter_modules ++ iterModulesList ms

end

/-- DocInfo.iter_modules (stexdoc.py lines 74-76). -/
def DocInfo.iter_modules (d : DocInfo) : List ModuleInfo :=
  iterModulesList d.modules

/-- DocInfo.get_module (stexdoc.py lines 78-82): first module (in depth-first
iteration order) whose name matches. -/
def DocInfo.get_module (d : DocInfo) (name : String) : Option ModuleInfo :=
  (d.iter_modules).find? (fun m => m.name == name)

/-- Modelled from the spec: the argument descriptor of a macro/environment
node.  The accessors of stextools.macro_arg_utils (get_first_macro_arg_opt,
OptArgKeyVals.from_first_macro_arg, get_first_main_arg) are not part of src/;
spec section 6 requires "argument descriptors split into optional-bracketed,
keyword-value, and positional/main components", which these fields carry
directly. -/
structure ArgSpec where
  optArg : Option String := none
  keyvals : Option (List (String × String)) := none
  mainArgs : List String := []
  deriving DecidableEq, Repr

/-- Modelled from the spec: get_first_macro_arg_opt returns the content of the
first optional bracketed argument, if any. -/
def get_first_macro_arg_opt (a : ArgSpec) : Option String :=
  a.optArg

/-- Modelled from the spec: OptArgKeyVals.from_first_macro_arg parses the
first optional argument as a keyword-value list (absent if there is none). -/
def optArgKeyValsFromFirstMacroArg (a : ArgSpec) : Option (List (String × String)) :=
  a.keyvals

/-- Modelled from the spec: OptArgKeyVals.get_val looks a key up in the
keyword-value list (first occurrence). -/
def keyValsGetVal (kvs : List (String × String)) (k : String) : Option String :=
  (kvs.find? (fun kv => kv.1 == k)).map (fun kv => kv.2)

/-- Modelled from the spec: get_first_main_arg returns the first
positional/main argument, if any. -/
def get_first_main_arg (a : ArgSpec) : Option String :=
  a.mainArgs.head?

/-- Characters of Python str.split(sep) for a single-character separator,
computed structurally over the character list. -/
def pySplitChars (sep : Char) : List Char → List (List Char)
  | [] => [[]]
  | c :: cs =>
    let r := pySplitChars sep cs
    if c = sep then [] :: r
    else
      match r with
      | g :: gs => (c :: g) :: gs
      | [] => [[c]]

/-- Python str.split(sep) for a single-character separator (the source only
splits on the one-character separators '.', '/' and '?'). -/
def pySplit (s : String) (sep : Char) : List String :=
  (pySplitChars sep s.data).map String.mk

/-- Python (c in s) for a character. -/
def pyContains (s : String) (c : Char) : Bool :=
  s.data.contains c

/-- Python s[n:] (strings are character sequences in both languages). -/
def pyDrop (s : String) (n : Nat) : String :=
  ⟨s.data.drop n⟩

/-- Python str.strip(): remove leading and trailing whitespace. -/
def pyStrip (s : String) : String :=
  ⟨((s.data.dropWhile Char.isWhitespace).reverse.dropWhile Char.isWhitespace).reverse⟩

/-- Python str.startswith. -/
def pyStartsWith (s pre : String) : Bool :=
  pre.data.isPrefixOf s.data

/-- Python str.endswith. -/
def pyEndsWith (s suf : String) : Bool :=
  suf.data.isSuffixOf s.data

/-- Parsed-document tree node (the seven node kinds the engine consumes,
spec section 4.4; pylatexenc node classes in the source).  Each node carries
its character span as (pos, len). -/
inductive LNode where
  | commentNode (pos len : Nat)
  | charsNode (pos len : Nat)
  | mathNode (pos len : Nat)
  | specialsNode (pos len : Nat)
  | groupNode (pos len : Nat) (children : List LNode)
  | envNode (envname : String) (pos len : Nat) (args : ArgSpec) (children : List LNode)
  | macroNode (macroname : String) (pos len : Nat) (args : ArgSpec)
  deriving Repr

/-- Manifest contents: the key-value map read from META-INF/MANIFEST.MF. -/
abbrev Manifest := List (String × String)

/-- Association-list lookup, modelling Python dict.get / `in` by key. -/
def assocFind {α : Type} (l : List (String × α)) (k : String) : Option α :=
  (l.find? (fun kv => kv.1 == k)).map (fun kv => kv.2)

/-- Association-list update at an existing key, preserving entry order
(Python dict assignment to a present key). -/
def assocSet {α : Type} : List (String × α) → String → α → List (String × α)
  | [], _, _ => []
  | (k', v') :: rest, k, v =>
    if k' == k then (k', v) :: rest else (k', v') :: assocSet rest k v

/-- STeXDocument state (stexdoc.py lines 199-218): the resolved absolute path
and the cached DocInfo slot. -/
structure STeXDocument where
  path : String
  docInfo : Option DocInfo := none
  deriving Repr

/-- Repository state (mathhub.py lines 105-135): filesystem root plus the
lazily-computed manifest, document map, and memoized archive name
(functools.cache on get_archive_name). -/
structure Repository where
  path : String
  nameCache : Option String := none
  manifestCache : Option Manifest := none
  stexDocuments : Option (List (String × STeXDocument)) := none
  deriving Repr

/-- Disk: the external filesystem and parser state the engine reads.  Paths
are full posix path strings (Python works with absolute resolved paths).
parsed models the out-of-scope LaTeX parser: for each document path it yields
the node list and the total length returned by walker.get_latex_nodes(). -/
structure Disk where
  hubRoot : String
  repoRoots : List String
  files : List String
  manifests : String → Option Manifest
  mtimes : String → Nat
  parsed : String → List LNode × Nat

/-- Repository.get_manifest (mathhub.py lines 160-164): reads and caches the
manifest; Manifest raises FileNotFoundError if the file does not exist (the
manifest reader itself is out of scope; spec section 4.1).  Returns the
manifest together with the updated repository state. -/
def Repository.get_manifest (r : Repository) (disk : Disk) :
    Except PyErr (Manifest × Repository) :=
  match r.manifestCache with
  | some m => .ok (m, r)
  | none =>
    match disk.manifests r.path with
    | none => .error .fileNotFound
    | some m => .ok (m, { r with manifestCache := some m })

/-- Repository.get_archive_name (mathhub.py lines 201-210): manifest id if
present, else the path relative to the hub root; memoized via functools.cache
(the nameCache field).  Returns the name and the updated caches. -/
def Repository.get_archive_name (r : Repository) (disk : Disk) : String × Repository :=
  match r.nameCache with
  | some n => (n, r)
  | none =>
    let name_guess := pyDrop r.path (disk.hubRoot.length + 1)
    match r.get_manifest disk with
    | .error _ => (name_guess, { r with nameCache := some name_guess })
    | .ok (m, r') =>
      match assocFind m "id" with
      | some i => (i, { r' with nameCache := some i })
      | none => (name_guess, { r' with nameCache := some name_guess })

/-- Value of Repository.get_archive_name without the cache-state update.
For a fixed disk the memoization is value-transparent, so read sites that do
not otherwise observe the repository state use this form. -/
def Repository.get_archive_name_value (r : Repository) (disk : Disk) : String :=
  (r.get_archive_name disk).1

/-- MathHub state (mathhub.py lines 18-21): the archive-name-to-Repository
mapping, as an insertion-ordered association list (Python dict). -/
structure MathHub where
  archive_lookup : List (String × Repository)

/-- MathHub.get_archive (mathhub.py lines 23-24). -/
def MathHub.get_archive (mh : MathHub) (archive_name : String) : Option Repository :=
  assocFind mh.archive_lookup archive_name

/-- Repository.normalize_tex_file_ref as defined (mathhub.py lines 166-182),
taking exactly the parameters of its definition: a path and a top directory.
Tries the literal path, then path + ".tex", then the first file in the
containing directory matching basename.*.tex (glob order = Disk.files
order). -/
def Repository.normalize_tex_file_ref (r : Repository) (disk : Disk)
    (path : String) (directory : String) : Option String :=
  if disk.files.contains (r.path ++ "/" ++ directory ++ "/" ++ path) then
    some path
  else if disk.files.contains (r.path ++ "/" ++ directory ++ "/" ++ path ++ ".tex") then
    some (path ++ ".tex")
  else
    let split := pySplit path '/'
    let base := split.getLastD ""
    let dirPath := r.path ++ "/" ++ directory ++
      (String.join ((split.dropLast).map (fun s => "/" ++ s)))
    let matches_ := disk.files.filter (fun p =>
      pyStartsWith p (dirPath ++ "/") ∧
      (let nm := pyDrop p (dirPath.length + 1)
       ¬ pyContains nm '/' ∧ pyStartsWith nm (base ++ ".") ∧ pyEndsWith nm ".tex" ∧
       nm.length ≥ base.length + 5))
    match matches_ with
    | [] => none
    | p :: _ =>
      some (String.intercalate "/" ((split.dropLast) ++ [pyDrop p (dirPath.length + 1)]))

/-- Call site shim: stexdoc.py (lines 138 and 160) invokes
archive.normalize_tex_file_ref(path_option, top_dir, lang) with three
arguments, but the definition of normalize_tex_file_ref (mathhub.py line 167)
accepts only (path, directory).  The functools.lru_cache wrapper forwards all
arguments to the wrapped function, so every such call raises TypeError before
the body runs. -/
def normalize_tex_file_ref_call3 (_r : Repository) (_disk : Disk)
    (_path _directory _lang : String) : Except PyErr (Option String) :=
  .error .typeError

/-- Loop over path options in DependencyProducer.produce: return the first
successfully normalized file, if any. -/
def tryPathOptions (r : Repository) (disk : Disk) :
    List String → String → String → Except PyErr (Option String)
  | [], _, _ => .ok none
  | p :: rest, d, lg =>
    match normalize_tex_file_ref_call3 r disk p d lg with
    | .error e => .error e
    | .ok (some f) => .ok (some f)
    | .ok none => tryPathOptions r disk rest d lg

/-- DependencyProducer (stexdoc.py lines 85-95): a static rule record for one
dependency-producing macro name. -/
structure DependencyProducer where
  macroname : String
  references_module : Bool := false
  opt_param_is_archive : Bool := false
  archive_in_params : Bool := false
  is_lib : Bool := false
  is_use : Bool := false
  target_no_tex : Bool := false
  deriving DecidableEq, Repr

/-- Main-argument split for module references (stexdoc.py lines 125-129):
partition on the first question mark, else module name is the last
slash-separated segment of the path. -/
def splitMainArg (main_arg : String) : String × String :=
  if pyContains main_arg '?' then
    match pySplit main_arg '?' with
    | [] => (main_arg, "")
    | p :: rest => (p, String.intercalate "?" rest)
  else
    (main_arg, (pySplit main_arg '/').getLastD "")

/-- DependencyProducer.produce (stexdoc.py lines 97-169).  The node's data is
passed as its argument descriptor and span; valid_range is the range handed
in by the tree walk. -/
def DependencyProducer.produce (dp : DependencyProducer) (args : ArgSpec)
    (pos len : Nat) (from_archive from_subdir : String) (mh : MathHub)
    (disk : Disk) (valid_range : Nat × Nat) (lang : String) :
    Except PyErr (Option Dependency) :=
  let target_archive : Option String :=
    if dp.opt_param_is_archive then
      match get_first_macro_arg_opt args with
      | some s => if s ≠ "" then some (pyStrip s) else none
      | none => none
    else if dp.archive_in_params then
      match optArgKeyValsFromFirstMacroArg args with
      | some kvs =>
        match keyValsGetVal kvs "archive" with
        | some v => if v ≠ "" then some v else none
        | none => none
      | none => none
    else none
  match get_first_main_arg args with
  | none => .ok none
  | some main_arg =>
    let top_dir := if dp.is_lib then "lib" else "source"
    let eff := match target_archive with
      | some t => if t = "" then from_archive else t
      | none => from_archive
    let intro_range := (pos, pos + len)
    match mh.get_archive eff with
    | none =>
      .ok (some { archive := eff, file := none, module_name := none,
                  is_lib := dp.is_lib, is_use := dp.is_use,
                  target_no_tex := dp.target_no_tex,
                  valid_range := some valid_range, intro_range := some intro_range })
    | some archive =>
      let archName := archive.get_archive_name_value disk
      if dp.references_module then
        let pm := splitMainArg main_arg
        let path := pm.1
        let module_name := pm.2
        let path_options :=
          (if target_archive = none then
             [from_subdir ++ "/" ++ path, from_subdir ++ "/" ++ path ++ "/" ++ module_name]
           else []) ++ [path, path ++ "/" ++ module_name]
        match tryPathOptions archive disk path_options top_dir lang with
        | .error e => .error e
        | .ok (some file) =>
          .ok (some { archive := archName, file := some file,
                      module_name := some module_name, is_lib := dp.is_lib,
                      is_use := dp.is_use, target_no_tex := dp.target_no_tex,
                      valid_range := some valid_range, intro_range := some intro_range })
        | .ok none =>
          .ok (some { archive := archName, file := none,
                      module_name := some module_name, is_lib := dp.is_lib,
                      is_use := dp.is_use, target_no_tex := dp.target_no_tex,
                      valid_range := some valid_range, intro_range := some intro_range })
      else
        if dp.target_no_tex then
          .ok (some { archive := archName, file := none, module_name := none,
                      is_lib := dp.is_lib, is_use := dp.is_use,
                      target_no_tex := dp.target_no_tex,
                      valid_range := some valid_range, intro_range := some intro_range })
        else
          let path_options :=
            (if target_archive = none then [from_subdir ++ "/" ++ main_arg] else [])
              ++ [main_arg]
          match tryPathOptions archive disk path_options top_dir lang with
          | .error e => .error e
          | .ok (some file) =>
            .ok (some { archive := archName, file := some file, module_name := none,
                        is_lib := dp.is_lib, is_use := dp.is_use,
                        target_no_tex := dp.target_no_tex,
                        valid_range := some valid_range, intro_range := some intro_range })
          | .ok none =>
            .ok (some { archive := archName, file := none, module_name := none,
                        is_lib := dp.is_lib, is_use := dp.is_use,
                        target_no_tex := dp.target_no_tex,
                        valid_range := some valid_range, intro_range := some intro_range })

/-- DEPENDENCY_PRODUCERS (stexdoc.py lines 172-195). -/
def DEPENDENCY_PRODUCERS : List DependencyProducer :=
  [ { macroname := "usemodule", references_module := true, opt_param_is_archive := true, is_use := true },
    { macroname := "requiremodule", references_module := true, opt_param_is_archive := true, is_use := true },
    { macroname := "importmodule", references_module := true, opt_param_is_archive := true },
    { macroname := "inputref", opt_param_is_archive := true },
    { macroname := "mhinput", opt_param_is_archive := true },
    { macroname := "mhgraphics", archive_in_params := true, target_no_tex := true },
    { macroname := "cmhgraphics", archive_in_params := true, target_no_tex := true },
    { macroname := "mhtikzinput", archive_in_params := true, target_no_tex := true },
    { macroname := "cmhtikzinput", archive_in_params := true, target_no_tex := true },
    { macroname := "lstinputmhlisting", archive_in_params := true, target_no_tex := true },
    { macroname := "includeproblem", archive_in_params := true },
    { macroname := "libinput", opt_param_is_archive := true, is_lib := true },
    { macroname := "addmhbibresource", archive_in_params := true, target_no_tex := true, is_lib := true } ]

/-- DEPENDENCY_PRODUCER_BY_MACRONAME (stexdoc.py line 196): lookup by macro
name. -/
def dependencyProducerByMacroname (name : String) : Option DependencyProducer :=
  DEPENDENCY_PRODUCERS.find? (fun dp => dp.macroname == name)

/-- Per-document context threaded through the tree walk of create_doc_info:
the hub, disk, the document's archive name, its sub-directory path with the
leading source/lib segment stripped, its file name and its directory. -/
structure PEnv where
  mh : MathHub
  disk : Disk
  archiveName : String
  fromSubdir : String
  fileName : String
  docDir : String

/-- Attachment target of the walk: the document root accumulators, or the
module currently under construction. -/
inductive PTarget where
  | doc (dependencies : List Dependency) (modules : List ModuleInfo)
  | mod (m : ModuleInfo)

/-- Append a finished module to the target's module list (Python appends the
new ModuleInfo to module_info.modules or doc_info.modules). -/
def PTarget.pushModule : PTarget → ModuleInfo → PTarget
  | .doc deps mods, m => .doc deps (mods ++ [m])
  | .mod r, m => .mod (r.withModules (r.modules ++ [m]))

/-- Fold the chain of smodules opened in the current node list back into the
surrounding target.  The source mutates shared objects instead: each opened
module was appended to its parent at creation and then extended in place;
since nothing else is appended to the parent afterwards, folding the final
value in at the end is equivalent. -/
def attachChain : PTarget → List ModuleInfo → PTarget
  | t, [] => t
  | t, [m] => t.pushModule m
  | t, m :: parent :: rest =>
    attachChain t ((parent.withModules (parent.modules ++ [m])) :: rest)
termination_by t l => l.length

/-- Name of the module currently bound to module_info, if any. -/
def currentModuleName (root : PTarget) (chain : List ModuleInfo) : Option String :=
  match chain with
  | m :: _ => some m.name
  | [] =>
    match root with
    | .mod m => some m.name
    | .doc _ _ => none

/-- Append a produced Dependency to module_info.dependencies, or to
doc_info.dependencies when there is no current module (stexdoc.py 282-286). -/
def attachDep (root : PTarget) (chain : List ModuleInfo) (dep : Dependency) :
    PTarget × List ModuleInfo :=
  match chain with
  | m :: rest => (root, m.withDependencies (m.dependencies ++ [dep]) :: rest)
  | [] =>
    match root with
    | .mod m => (.mod (m.withDependencies (m.dependencies ++ [dep])), [])
    | .doc deps mods => (.doc (deps ++ [dep]) mods, [])

/-- Names of the recognized symbol-declaring/referencing macros
(stexdoc.py line 287). -/
def symbolMacroNames : List String :=
  ["definiendum", "definame", "Definame", "symdef", "symdecl"]

/-- Upper-case the first character, keep the rest (stexdoc.py line 310,
verbalization[0].upper() + verbalization[1:], guarded by non-emptiness). -/
def capitalizeFirst (s : String) : String :=
  match s.data with
  | [] => s
  | c :: cs => ⟨c.toUpper :: cs⟩

/-- Symbol and verbalization extraction per macro (stexdoc.py lines 290-312).
The argnlist index layout comes from the macro specs in stextools.macros,
which is not part of src/; the indices are mapped to the argument descriptor
per the spec's rule table (definiendum: second-to-last and last argument;
symdef: name= keyword parameter else first positional; symdecl, definame,
Definame: last argument).  The final else mirrors the source's
RuntimeError('Unexpected macroname'). -/
def extractSymbolVerbalization (macroname : String) (args : ArgSpec) :
    Except PyErr (String × String) :=
  if macroname = "definiendum" then
    match (args.mainArgs.dropLast).getLast?, args.mainArgs.getLast? with
    | some sym, some verb => .ok (sym, verb)
    | _, _ => .error .indexError
  else if macroname = "symdef" then
    let fromKv :=
      match optArgKeyValsFromFirstMacroArg args with
      | some kvs => keyValsGetVal kvs "name"
      | none => none
    match fromKv with
    | some sym => .ok (sym, sym)
    | none =>
      match args.mainArgs.head? with
      | some sym => .ok (sym, sym)
      | none => .error .indexError
  else if macroname = "symdecl" then
    match args.mainArgs.getLast? with
    | some sym => .ok (sym, sym)
    | none => .error .indexError
  else if macroname = "definame" then
    match args.mainArgs.getLast? with
    | some sym => .ok (sym, sym)
    | none => .error .indexError
  else if macroname = "Definame" then
    match args.mainArgs.getLast? with
    | some sym => .ok (sym, capitalizeFirst sym)
    | none => .error .indexError
  else
    .error .runtimeError

/-- Find the symbol with the given name in the list and append the
verbalization to it; none if no symbol of that name exists
(stexdoc.py lines 315-319 and 325). -/
def addVerbalizationByName : List Symbol → String → (String × Nat × Nat) →
    Option (List Symbol)
  | [], _, _ => none
  | s :: ss, nm, v =>
    if s.name = nm then
      some ({ s with verbalizations := s.verbalizations ++ [v] } :: ss)
    else
      (addVerbalizationByName ss nm v).map (fun l => s :: l)

/-- One symbol-macro hit on a module (stexdoc.py lines 314-325): find or
create the Symbol by name; the declaration span is set only when the Symbol
is created, and only for symdef/symdecl. -/
def addSymbolHit (m : ModuleInfo) (macroname symbol verbalization : String)
    (pos len : Nat) : ModuleInfo :=
  match addVerbalizationByName m.symbols symbol (verbalization, pos, pos + len) with
  | some ss => m.withSymbols ss
  | none =>
    let decl : Option (Nat × Nat) :=
      if macroname = "symdef" ∨ macroname = "symdecl" then some (pos, pos + len) else none
    m.withSymbols (m.symbols ++
      [{ name := symbol, verbalizations := [(verbalization, pos, pos + len)],
         decl_def := decl }])

/-- Apply a symbol-macro hit to the current module; dropped when there is no
current module (stexdoc.py line 314, if module_info:). -/
def attachSymbolHit (root : PTarget) (chain : List ModuleInfo)
    (macroname symbol verbalization : String) (pos len : Nat) :
    PTarget × List ModuleInfo :=
  match chain with
  | m :: rest => (root, addSymbolHit m macroname symbol verbalization pos len :: rest)
  | [] =>
    match root with
    | .mod m => (.mod (addSymbolHit m macroname symbol verbalization pos len), [])
    | .doc deps mods => (.doc deps mods, [])

/-- Language tag of the document (stexdoc.py lines 270-273): second-to-last
dot-separated component of the file name when there are more than two
components, else the wildcard. -/
def langOfFileName (fileName : String) : String :=
  let parts := pySplit fileName '.'
  if parts.length > 2 then parts.getD (parts.length - 2) "*" else "*"

/-- Signature dependency of an smodule environment (stexdoc.py lines
248-264): when the environment's keyword parameters carry a non-empty sig
value, substitute it into the second-to-last dot-separated component of the
document's file name; the Dependency carries the sibling's full posix path if
that file exists, else no file; zero or one dependency results.  The truthy
check on the parsed keyword-value object is modelled as presence. -/
def sigDependencies (env : PEnv) (args : ArgSpec) (name : String)
    (pos len : Nat) : List Dependency :=
  match optArgKeyValsFromFirstMacroArg args with
  | none => []
  | some kvs =>
    match keyValsGetVal kvs "sig" with
    | none => []
    | some sig_val =>
      if sig_val = "" then []
      else
        let name_parts := pySplit env.fileName '.' 
        let fr : String × Bool :=
          if name_parts.length > 2 then
            let np := name_parts.set (name_parts.length - 2) sig_val
            let f := env.docDir ++ "/" ++ String.intercalate "." np
            (f, env.disk.files.contains f)
          else
            (env.docDir ++ "/" ++ env.fileName, false)
        [{ archive := env.archiveName,
           file := if fr.2 then some fr.1 else none,
           module_name := some name, is_use := false,
           valid_range := some (pos, pos + len),
           intro_range := some (pos, pos + len) }]

/-- Opening an smodule environment (stexdoc.py lines 235-244): the local name
is prefixed with the current module's name when one exists, and the new
ModuleInfo starts with the signature dependencies (appended before the
children are processed). -/
def smoduleNewModule (env : PEnv) (root : PTarget) (chain : List ModuleInfo)
    (rawName : String) (p l : Nat) (args : ArgSpec) : ModuleInfo :=
  let name :=
    match currentModuleName root chain with
    | some cur => cur ++ "/" ++ rawName
    | none => rawName
  .mk name (sigDependencies env args name p l) [] []

/-- The recursive tree walk process of STeXDocument.create_doc_info
(stexdoc.py lines 227-327), in explicit-state form.  root is the surrounding
attachment target, chain the stack of smodules opened in the current node
list (innermost first): Python rebinds module_info to each newly opened
smodule for the remaining siblings, and the rebinding does not escape the
recursive call for a group's or environment's children.  Absent node kinds
would hit the source's fatal unexpected-node branch; the LNode type
enumerates exactly the seven kinds the walk accepts.  The internalError
branches are unreachable (processList preserves the target constructor, see
processList_mod_shape below). -/
def processList (env : PEnv) :
    List LNode → (Nat × Nat) → PTarget → List ModuleInfo → Except PyErr PTarget
  | [], _, root, chain => .ok (attachChain root chain)
  | .commentNode _ _ :: rest, pr, root, chain => processList env rest pr root chain
  | .charsNode _ _ :: rest, pr, root, chain => processList env rest pr root chain
  | .mathNode _ _ :: rest, pr, root, chain => processList env rest pr root chain
  | .specialsNode _ _ :: rest, pr, root, chain => processList env rest pr root chain
  | .groupNode p l children :: rest, pr, root, chain =>
    (match chain with
     | h :: t =>
       match processList env children (p, p + l) (.mod h) [] with
       | .error e => .error e
       | .ok (.mod h') => processList env rest pr root (h' :: t)
       | .ok (.doc _ _) => .error .internalError
     | [] =>
       match processList env children (p, p + l) root [] with
       | .error e => .error e
       | .ok root' => processList env rest pr root' [])
  | .envNode en p l args children :: rest, pr, root, chain =>
    if en = "smodule" then
      match args.mainArgs.head? with
      | none => .error .attributeError
      | some rawName =>
        match processList env children (p, p + l)
            (.mod (smoduleNewModule env root chain rawName p l args)) [] with
        | .error e => .error e
        | .ok (.mod newM') => processList env rest pr root (newM' :: chain)
        | .ok (.doc _ _) => .error .internalError
    else
      (match chain with
       | h :: t =>
         match processList env children (p, p + l) (.mod h) [] with
         | .error e => .error e
         | .ok (.mod h') => processList env rest pr root (h' :: t)
         | .ok (.doc _ _) => .error .internalError
       | [] =>
         match processList env children (p, p + l) root [] with
         | .error e => .error e
         | .ok root' => processList env rest pr root' [])
  | .macroNode mn p l args :: rest, pr, root, chain =>
    match dependencyProducerByMacroname mn with
    | some dp =>
      let lang := langOfFileName env.fileName
      match dp.produce args p l env.archiveName env.fromSubdir env.mh env.disk pr lang with
      | .error e => .error e
      | .ok none => processList env rest pr root chain
      | .ok (some dep) =>
        let rc := attachDep root chain dep
        processList env rest pr rc.1 rc.2
    | none =>
      if symbolMacroNames.contains mn then
        match extractSymbolVerbalization mn args with
        | .error e => .error e
        | .ok sv =>
          let rc := attachSymbolHit root chain mn sv.1 sv.2 p l
          processList env rest pr rc.1 rc.2
      else
        processList env rest pr root chain

/-- STeXDocument.get_rel_path (stexdoc.py lines 211-212): the document path
relative to its archive root. -/
def STeXDocument.get_rel_path (d : STeXDocument) (archivePath : String) : String :=
  pyDrop d.path (archivePath.length + 1)

/-- STeXDocument.delete_doc_info_if_outdated (stexdoc.py lines 214-218):
drop the cached DocInfo when the file's current modification time strictly
exceeds the stored timestamp. -/
def STeXDocument.delete_doc_info_if_outdated (d : STeXDocument) (disk : Disk) :
    STeXDocument :=
  match d.docInfo with
  | none => d
  | some di =>
    if disk.mtimes d.path > di.last_modified then { d with docInfo := none } else d

/-- Walk context built by STeXDocument.create_doc_info from the document's
path (stexdoc.py lines 270-281): the archive's name, the sub-directory path
with the leading source/lib segment stripped (note that the stripped relative
path still ends in the file name, exactly as in the source), the file name
and the directory. -/
def docWalkEnv (path : String) (arch : Repository) (mh : MathHub) (disk : Disk) : PEnv :=
  let relPath := pyDrop path (arch.path.length + 1)
  { mh := mh, disk := disk,
    archiveName := arch.get_archive_name_value disk,
    fromSubdir := String.intercalate "/" ((pySplit relPath '/').drop 1),
    fileName := (pySplit path '/').getLastD "",
    docDir := String.intercalate "/" ((pySplit path '/').dropLast) }

/-- Body of STeXDocument.create_doc_info (stexdoc.py lines 220-330) as a
function of the document's path: parse the file, stat its modification time,
and walk the tree into a DocInfo. -/
def createDocInfoCore (path : String) (arch : Repository) (mh : MathHub)
    (disk : Disk) : Except PyErr DocInfo :=
  let tl := disk.parsed path
  let mtime := disk.mtimes path
  match processList (docWalkEnv path arch mh disk) tl.1 (0, tl.2) (.doc [] []) [] with
  | .error e => .error e
  | .ok (.doc deps mods) =>
    .ok { last_modified := mtime, dependencies := deps, modules := mods }
  | .ok (.mod _) => .error .internalError

/-- STeXDocument.create_doc_info (stexdoc.py lines 220-330): compute the
DocInfo from the file and replace the cache slot, regardless of staleness.
The document's archive (self.archive) is passed explicitly. -/
def STeXDocument.create_doc_info (d : STeXDocument) (arch : Repository)
    (mh : MathHub) (disk : Disk) : Except PyErr STeXDocument :=
  match createDocInfoCore d.path arch mh disk with
  | .error e => .error e
  | .ok info => .ok { d with docInfo := some info }

/-- STeXDocument.get_doc_info (stexdoc.py lines 205-209): return the cached
DocInfo, computing it first when the slot is empty; the final branch mirrors
the source's assert. -/
def STeXDocument.get_doc_info (d : STeXDocument) (arch : Repository)
    (mh : MathHub) (disk : Disk) : Except PyErr (DocInfo × STeXDocument) :=
  match d.docInfo with
  | some di => .ok (di, d)
  | none =>
    match d.create_doc_info arch mh disk with
    | .error e => .error e
    | .ok d' =>
      match d'.docInfo with
      | some di => .ok (di, d')
      | none => .error .assertionError

/-- Repository._relevant_file_iterate (mathhub.py lines 131-135): all .tex
files under the archive's source tree, then under its lib tree, in disk
order. -/
def Repository.relevantFiles (r : Repository) (disk : Disk) : List String :=
  disk.files.filter (fun p => pyStartsWith p (r.path ++ "/source/") ∧ pyEndsWith p ".tex")
    ++ disk.files.filter (fun p => pyStartsWith p (r.path ++ "/lib/") ∧ pyEndsWith p ".tex")

/-- Repository.update (mathhub.py lines 113-129): clear the manifest cache;
when the document map is loaded, add entries for new files, run the staleness
check on surviving entries, and prune entries whose file disappeared (the
source iterates over a copied key list here, so no dict-mutation error
arises). -/
def Repository.update (r : Repository) (disk : Disk) : Repository :=
  let r := { r with manifestCache := none }
  match r.stexDocuments with
  | none => r
  | some docs =>
    let step := (r.relevantFiles disk).foldl
      (fun (acc : List (String × STeXDocument) × List String) p =>
        let rel := pyDrop p (r.path.length + 1)
        let ds :=
          match assocFind acc.1 rel with
          | none => acc.1 ++ [(rel, { path := p })]
          | some d0 => assocSet acc.1 rel (d0.delete_doc_info_if_outdated disk)
        (ds, acc.2 ++ [rel]))
      (docs, [])
    { r with stexDocuments := some (step.1.filter (fun kv => step.2.contains kv.1)) }

/-- _get_mathhub_repos (mathhub.py lines 213-217): one fresh Repository per
discovered repository root, in glob order. -/
def getMathhubRepos (disk : Disk) : List Repository :=
  disk.repoRoots.map (fun p => { path := p })

/-- Iteration over archive_lookup.values() in MathHub.update (mathhub.py
lines 49-53).  Deleting an entry from the dict being iterated makes the next
iterator step raise RuntimeError (also when the deleted entry was the last),
so the whole refresh fails as soon as any stored archive's name is no longer
needed; the partially mutated state is discarded with the exception. -/
def updateValuesLoop (disk : Disk) (still : List String) :
    List (String × Repository) → Except PyErr (List (String × Repository))
  | [] => .ok []
  | (k, r) :: rest =>
    let nr := r.get_archive_name disk
    if still.contains nr.1 then
      match updateValuesLoop disk still rest with
      | .error e => .error e
      | .ok rest' => .ok ((k, nr.2.update disk) :: rest')
    else
      .error .runtimeError

/-- MathHub.update (mathhub.py lines 41-55): discover repository roots,
register archives for new names, then walk the stored archives refreshing
survivors; any archive whose backing root disappeared triggers the
dict-mutation RuntimeError in updateValuesLoop. -/
def MathHub.update (mh : MathHub) (disk : Disk) : Except PyErr MathHub :=
  let phase1 := (getMathhubRepos disk).foldl
    (fun (acc : List (String × Repository) × List String) repo =>
      let nr := repo.get_archive_name disk
      let lk :=
        match assocFind acc.1 nr.1 with
        | none => acc.1 ++ [(nr.1, nr.2)]
        | some _ => acc.1
      (lk, acc.2 ++ [nr.1]))
    (mh.archive_lookup, [])
  match updateValuesLoop disk phase1.2 phase1.1 with
  | .error e => .error e
  | .ok lk => .ok ⟨lk⟩

/-- Effect of processing a single node of the walk on the (root, chain)
state: proof infrastructure factoring one iteration of the loop in
processList. -/
def processStep (env : PEnv) (n : LNode) (pr : Nat × Nat) (root : PTarget)
    (chain : List ModuleInfo) : Except PyErr (PTarget × List ModuleInfo) :=
  match n with
  | .commentNode _ _ => .ok (root, chain)
  | .charsNode _ _ => .ok (root, chain)
  | .mathNode _ _ => .ok (root, chain)
  | .specialsNode _ _ => .ok (root, chain)
  | .groupNode p l children =>
    (match chain with
     | h :: t =>
       match processList env children (p, p + l) (.mod h) [] with
       | .error e => .error e
       | .ok (.mod h') => .ok (root, h' :: t)
       | .ok (.doc _ _) => .error .internalError
     | [] =>
       match processList env children (p, p + l) root [] with
       | .error e => .error e
       | .ok root' => .ok (root', []))
  | .envNode en p l args children =>
    if en = "smodule" then
      match args.mainArgs.head? with
      | none => .error .attributeError
      | some rawName =>
        match processList env children (p, p + l)
            (.mod (smoduleNewModule env root chain rawName p l args)) [] with
        | .error e => .error e
        | .ok (.mod newM') => .ok (root, newM' :: chain)
        | .ok (.doc _ _) => .error .internalError
    else
      (match chain with
       | h :: t =>
         match processList env children (p, p + l) (.mod h) [] with
         | .error e => .error e
         | .ok (.mod h') => .ok (root, h' :: t)
         | .ok (.doc _ _) => .error .internalError
       | [] =>
         match processList env children (p, p + l) root [] with
         | .error e => .error e
         | .ok root' => .ok (root', []))
  | .macroNode mn p l args =>
    match dependencyProducerByMacroname mn with
    | some dp =>
      match dp.produce args p l env.archiveName env.fromSubdir env.mh env.disk pr
          (langOfFileName env.fileName) with
      | .error e => .error e
      | .ok none => .ok (root, chain)
      | .ok (some dep) => .ok (attachDep root chain dep)
    | none =>
      if symbolMacroNames.contains mn then
        match extractSymbolVerbalization mn args with
        | .error e => .error e
        | .ok sv => .ok (attachSymbolHit root chain mn sv.1 sv.2 p l)
      else .ok (root, chain)

/-- Archive of the signature-dependency example. -/
def c4arch : Repository := { path := "/mh/MyArchive", nameCache := some "MyArchive" }

/-- Registry of the signature-dependency example. -/
def c4mh : MathHub := ⟨[("MyArchive", c4arch)]⟩

/-- Parse tree of set.de.tex: one smodule set with a sig=en parameter. -/
def c4tree : List LNode :=
  [.envNode "smodule" 0 40 { keyvals := some [("sig", "en")], mainArgs := ["set"] } []]

/-- Disk of the signature-dependency example: both set.de.tex and its
sibling set.en.tex exist under the archive's source tree. -/
def c4disk : Disk :=
  { hubRoot := "/mh", repoRoots := ["/mh/MyArchive"],
    files := ["/mh/MyArchive/source/set.de.tex", "/mh/MyArchive/source/set.en.tex"],
    manifests := fun _ => none, mtimes := fun _ => 42,
    parsed := fun _ => (c4tree, 90) }

/-- The document set.de.tex. -/
def c4doc : STeXDocument := { path := "/mh/MyArchive/source/set.de.tex" }

/-- The signature dependency the code produces for the example: its file is
the sibling's full path, not a path relative to the source tree. -/
def c4sigdep : Dependency :=
  { archive := "MyArchive", file := some "/mh/MyArchive/source/set.en.tex",
    module_name := some "set", is_use := false,
    valid_range := some (0, 40), intro_range := some (0, 40) }

/-- Signature dependency described by the amended claim: same-archive edge
named after the module, whose file is the full posix path of the sibling
obtained by substituting the sig language into the second-to-last
dot-separated filename component — set only when the filename has more than
two components and the sibling exists — and whose two ranges are the
environment's span. -/
def expectedSigDep (env : PEnv) (nm sv : String) (p l : Nat) : Dependency :=
  let parts := pySplit env.fileName '.'
  let sib := env.docDir ++ "/" ++ String.intercalate "." (parts.set (parts.length - 2) sv)
  { archive := env.archiveName,
    file := if 2 < parts.length ∧ env.disk.files.contains sib then some sib else none,
    module_name := some nm, is_use := false,
    valid_range := some (p, p + l), intro_range := some (p, p + l) }

/-- Relation between the incoming attachment target and any successful result
of the walk: the constructor is preserved; for a module target the name is
preserved and the dependency list is only extended at its end. -/
def targetInvariant : PTarget → PTarget → Prop
  | .mod m, t =>
    ∃ m', t = .mod m' ∧ m'.name = m.name ∧
      ∃ ext, m'.dependencies = m.dependencies ++ ext
  | .doc _ _, t => ∃ ds' ms', t = .doc ds' ms'

/-- One symbol-macro hit on a fixed symbol name, covering the five
recognized macros: symdecl and symdef are declaring forms, definiendum (with
a free verbalization), definame and Definame merely reference. -/
inductive SymHit where
  | hSymdecl (pos len : Nat)
  | hSymdef (pos len : Nat)
  | hDefiniendum (verb : String) (pos len : Nat)
  | hDefiname (pos len : Nat)
  | hDefinameCap (pos len : Nat)

/-- The macro node of a symbol hit on symbol name s, with the argument
layout each macro expects. -/
def symHitNode (s : String) : SymHit → LNode
  | .hSymdecl p l => .macroNode "symdecl" p l { mainArgs := [s] }
  | .hSymdef p l => .macroNode "symdef" p l { mainArgs := [s] }
  | .hDefiniendum v p l => .macroNode "definiendum" p l { mainArgs := [s, v] }
  | .hDefiname p l => .macroNode "definame" p l { mainArgs := [s] }
  | .hDefinameCap p l => .macroNode "Definame" p l { mainArgs := [s] }

/-- The verbalization entry a hit appends (per the extraction table). -/
def symHitVerb (s : String) : SymHit → (String × Nat × Nat)
  | .hSymdecl p l => (s, p, p + l)
  | .hSymdef p l => (s, p, p + l)
  | .hDefiniendum v p l => (v, p, p + l)
  | .hDefiname p l => (s, p, p + l)
  | .hDefinameCap p l => (capitalizeFirst s, p, p + l)

/-- Whether a hit is a declaring form (symdef/symdecl). -/
def SymHit.isDeclaring : SymHit → Bool
  | .hSymdecl _ _ => true
  | .hSymdef _ _ => true
  | _ => false

/-- Span of a hit's macro node. -/
def SymHit.span : SymHit → Nat × Nat
  | .hSymdecl p l => (p, p + l)
  | .hSymdef p l => (p, p + l)
  | .hDefiniendum _ p l => (p, p + l)
  | .hDefiname p l => (p, p + l)
  | .hDefinameCap p l => (p, p + l)

/-- Declaration span the code produces for a hit sequence: set only when the
first hit (the one that creates the Symbol) is a declaring form. -/
def expectedDeclSpan : List SymHit → Option (Nat × Nat)
  | [] => none
  | h :: _ => if h.isDeclaring then some h.span else none

/-- Symbol list the code produces for a hit sequence on one name. -/
def expectedSymbols (s : String) : List SymHit → List Symbol
  | [] => []
  | h :: hs =>
    [{ name := s, verbalizations := (h :: hs).map (symHitVerb s),
       decl_def := expectedDeclSpan (h :: hs) }]

/-- Macro name of a hit. -/
def symHitMacroname : SymHit → String
  | .hSymdecl _ _ => "symdecl"
  | .hSymdef _ _ => "symdef"
  | .hDefiniendum _ _ _ => "definiendum"
  | .hDefiname _ _ => "definame"
  | .hDefinameCap _ _ => "Definame"

/-- Start offset of a hit's macro node. -/
def SymHit.pos : SymHit → Nat
  | .hSymdecl p _ => p
  | .hSymdef p _ => p
  | .hDefiniendum _ p _ => p
  | .hDefiname p _ => p
  | .hDefinameCap p _ => p

/-- Length of a hit's macro node. -/
def SymHit.len : SymHit → Nat
  | .hSymdecl _ l => l
  | .hSymdef _ l => l
  | .hDefiniendum _ _ l => l
  | .hDefiname _ l => l
  | .hDefinameCap _ l => l

/-- Verbalization text of a hit. -/
def symHitVerbStr (s : String) (h : SymHit) : String :=
  (symHitVerb s h).1

/-- An empty filesystem disk used by concrete examples. -/
def exDisk : Disk :=
  { hubRoot := "/mh", repoRoots := [], files := [], manifests := fun _ => none,
    mtimes := fun _ => 0, parsed := fun _ => ([], 0) }

/-- Concrete DocInfo cached by the example document. -/
def exDocInfo : DocInfo := { last_modified := 5 }

/-- Concrete document with a populated cache slot. -/
def exDocCached : STeXDocument :=
  { path := "/mh/A1/source/d.en.tex", docInfo := some exDocInfo }

/-- Disk on which the example document's file is newer than its cache. -/
def exDiskNewer : Disk := { exDisk with mtimes := fun _ => 9 }

/-- Disk on which the example document's file is older than its cache. -/
def exDiskOlder : Disk := { exDisk with mtimes := fun _ => 3 }

/-- Concrete walk context over the example hub, as built for a document
d.en.tex of archive A1. -/
def exEnv : PEnv :=
  { mh := ⟨[("A1", { path := "/mh/A1", nameCache := some "A1" })]⟩, disk :=
    { hubRoot := "/mh", repoRoots := [], files := [], manifests := fun _ => none,
      mtimes := fun _ => 0, parsed := fun _ => ([], 0) },
    archiveName := "A1", fromSubdir := "d.en.tex",
    fileName := "d.en.tex", docDir := "/mh/A1/source" }

/-- Locally installed archive A1 (name already memoized, as it is for every
archive stored in the registry). -/
def c1repo : Repository := { path := "/mh/A1", nameCache := some "A1" }

/-- Registry containing exactly archive A1. -/
def c1mh : MathHub := ⟨[("A1", c1repo)]⟩

/-- The importmodule dependency producer (entry of DEPENDENCY_PRODUCERS). -/
def c1dp : DependencyProducer :=
  { macroname := "importmodule", references_module := true, opt_param_is_archive := true }

/-- Arguments of an importmodule invocation with main argument m and no
archive override, so the target defaults to the invoking document's own
archive. -/
def c1args : ArgSpec := { mainArgs := ["m"] }

/-- Archive stored in the registry whose backing root is gone from disk. -/
def c2repo : Repository := { path := "/mh/Gone", nameCache := some "Gone" }

/-- Registry whose single archive has disappeared from disk. -/
def c2mh : MathHub := ⟨[("Gone", c2repo)]⟩

/-- Three nested example modules with one dependency each. -/
def c8grand : ModuleInfo := .mk "g" [{ archive := "a2" }] [] []

/-- Middle module of the flattening example. -/
def c8sub : ModuleInfo := .mk "s" [{ archive := "a1" }] [] [c8grand]

/-- Top module of the flattening example. -/
def c8top : ModuleInfo := .mk "t" [{ archive := "a0" }] [] [c8sub]

theorem processList_cons (env : PEnv) (n : LNode) (rest : List LNode)
    (pr : Nat × Nat) (root : PTarget) (chain : List ModuleInfo) :
    processList env (n :: rest) pr root chain =
      match processStep env n pr root chain with
      | .error e => .error e
      | .ok rc => processList env rest pr rc.1 rc.2 := by
  cases n with
  | commentNode pos len => rw [processList.eq_2]; rfl
  | charsNode pos len => rw [processList.eq_3]; rfl
  | mathNode pos len => rw [processList.eq_4]; rfl
  | specialsNode pos len => rw [processList.eq_5]; rfl
  | groupNode p l children =>
    cases chain with
    | nil =>
      rw [processList.eq_7]
      cases hc : processList env children (p, p + l) root [] with
      | error e => simp [processStep, hc]
      | ok root' => simp [processStep, hc]
    | cons h t =>
      rw [processList.eq_6]
      cases hc : processList env children (p, p + l) (.mod h) [] with
      | error e => simp [processStep, hc]
      | ok u =>
        cases u with
        | doc ds ms => simp [processStep, hc]
        | mod h' => simp [processStep, hc]
  | envNode en p l args children =>
    by_cases hen : en = "smodule"
    · subst hen
      cases chain with
      | nil =>
        rw [processList.eq_9, if_pos rfl]
        cases hm : args.mainArgs.head? with
        | none => simp [processStep, hm]
        | some rawName =>
          simp only []
          cases hc : processList env children (p, p + l)
              (.mod (smoduleNewModule env root [] rawName p l args)) [] with
          | error e => simp [processStep, hm, hc]
          | ok u =>
            cases u with
            | doc ds ms => simp [processStep, hm, hc]
            | mod newM' => simp [processStep, hm, hc]
      | cons m tail =>
        rw [processList.eq_8, if_pos rfl]
        cases hm : args.mainArgs.head? with
        | none => simp [processStep, hm]
        | some rawName =>
          simp only []
          cases hc : processList env children (p, p + l)
              (.mod (smoduleNewModule env root (m :: tail) rawName p l args)) [] with
          | error e => simp [processStep, hm, hc]
          | ok u =>
            cases u with
            | doc ds ms => simp [processStep, hm, hc]
            | mod newM' => simp [processStep, hm, hc]
    · cases chain with
      | nil =>
        rw [processList.eq_9, if_neg hen]
        cases hc : processList env children (p, p + l) root [] with
        | error e => simp [processStep, hc, hen]
        | ok root' => simp [processStep, hc, hen]
      | cons h t =>
        rw [processList.eq_8, if_neg hen]
        cases hc : processList env children (p, p + l) (.mod h) [] with
        | error e => simp [processStep, hc, hen]
        | ok u =>
          cases u with
          | doc ds ms => simp [processStep, hc, hen]
          | mod h' => simp [processStep, hc, hen]
  | macroNode mn p l args =>
    rw [processList.eq_10]
    cases hdp : dependencyProducerByMacroname mn with
    | none =>
      by_cases hs : symbolMacroNames.contains mn
      · have hs' : mn ∈ symbolMacroNames := by simpa using hs
        simp only [hdp, if_pos hs]
        cases he : extractSymbolVerbalization mn args with
        | error e => simp [processStep, hdp, hs, hs', he]
        | ok sv => simp [processStep, hdp, hs, hs', he]
      · have hs' : ¬ mn ∈ symbolMacroNames := by simpa using hs
        simp [processStep, hdp, hs, hs']
    | some dp =>
      simp only [hdp]
      cases hp : dp.produce args p l env.archiveName env.fromSubdir env.mh env.disk pr
          (langOfFileName env.fileName) with
      | error e => simp [processStep, hdp, hp]
      | ok o =>
        cases o with
        | none => simp [processStep, hdp, hp]
        | some dep => simp [processStep, hdp, hp]

theorem targetInvariant_refl (t : PTarget) : targetInvariant t t := by
  cases t with
  | doc ds ms => exact ⟨ds, ms, rfl⟩
  | mod m => exact ⟨m, rfl, rfl, [], by simp⟩

theorem targetInvariant_trans {a b c : PTarget}
    (h1 : targetInvariant a b) (h2 : targetInvariant b c) : targetInvariant a c := by
  cases a with
  | doc ds ms =>
    obtain ⟨ds', ms', rfl⟩ := h1
    obtain ⟨ds'', ms'', rfl⟩ := h2
    exact ⟨ds'', ms'', rfl⟩
  | mod m =>
    obtain ⟨m', rfl, hn, ext, hd⟩ := h1
    obtain ⟨m'', rfl, hn', ext', hd'⟩ := h2
    exact ⟨m'', rfl, hn'.trans hn, ext ++ ext', by simp [hd', hd]⟩

theorem pushModule_invariant (t : PTarget) (m : ModuleInfo) :
    targetInvariant t (t.pushModule m) := by
  cases t with
  | doc ds ms => exact ⟨ds, ms ++ [m], rfl⟩
  | mod r =>
    exact ⟨r.withModules (r.modules ++ [m]), rfl, by cases r <;> rfl, [],
      by cases r <;> simp [ModuleInfo.withModules, ModuleInfo.dependencies]⟩

theorem attachChain_invariant (t : PTarget) (chain : List ModuleInfo) :
    targetInvariant t (attachChain t chain) := by
  induction t, chain using attachChain.induct with
  | case1 t => rw [attachChain.eq_1]; exact targetInvariant_refl t
  | case2 t m => rw [attachChain.eq_2]; exact pushModule_invariant t m
  | case3 t m parent rest ih => rw [attachChain.eq_3]; exact ih

theorem attachDep_invariant (root : PTarget) (chain : List ModuleInfo)
    (dep : Dependency) : targetInvariant root (attachDep root chain dep).1 := by
  cases chain with
  | cons m rest => exact targetInvariant_refl root
  | nil =>
    cases root with
    | doc ds ms => exact ⟨ds ++ [dep], ms, rfl⟩
    | mod m =>
      exact ⟨m.withDependencies (m.dependencies ++ [dep]), rfl,
        by cases m <;> rfl, [dep], by cases m <;> rfl⟩

theorem attachSymbolHit_invariant (root : PTarget) (chain : List ModuleInfo)
    (mn sym verb : String) (p l : Nat) :
    targetInvariant root (attachSymbolHit root chain mn sym verb p l).1 := by
  cases chain with
  | cons m rest => exact targetInvariant_refl root
  | nil =>
    cases root with
    | doc ds ms => exact ⟨ds, ms, rfl⟩
    | mod m =>
      refine ⟨addSymbolHit m mn sym verb p l, rfl, ?_, [], ?_⟩
      · cases m
        simp [addSymbolHit, ModuleInfo.withSymbols, ModuleInfo.name]
        cases addVerbalizationByName _ sym (verb, p, p + l) <;> rfl
      · cases m
        simp [addSymbolHit, ModuleInfo.withSymbols, ModuleInfo.dependencies]
        cases addVerbalizationByName _ sym (verb, p, p + l) <;> rfl

theorem processStep_ok_invariant (env : PEnv) (n : LNode) (pr : Nat × Nat)
    (root : PTarget) (chain : List ModuleInfo) (rc : PTarget × List ModuleInfo)
    (hrec : ∀ ns' : List LNode, sizeOf ns' < sizeOf n →
      ∀ (pr' : Nat × Nat) (root' : PTarget) (chain' : List ModuleInfo) (t' : PTarget),
        processList env ns' pr' root' chain' = .ok t' → targetInvariant root' t')
    (hs : processStep env n pr root chain = .ok rc) : targetInvariant root rc.1 := by
  cases n with
  | commentNode pos len =>
    simp only [processStep] at hs
    cases hs; exact targetInvariant_refl root
  | charsNode pos len =>
    simp only [processStep] at hs
    cases hs; exact targetInvariant_refl root
  | mathNode pos len =>
    simp only [processStep] at hs
    cases hs; exact targetInvariant_refl root
  | specialsNode pos len =>
    simp only [processStep] at hs
    cases hs; exact targetInvariant_refl root
  | groupNode p l children =>
    have hlt : sizeOf children < sizeOf (LNode.groupNode p l children) := by
      simp <;> omega
    cases chain with
    | cons h t =>
      simp only [processStep] at hs
      cases hc : processList env children (p, p + l) (.mod h) [] with
      | error e => rw [hc] at hs; exact absurd hs (by simp)
      | ok u =>
        rw [hc] at hs
        cases u with
        | doc ds ms => exact absurd hs (by simp)
        | mod h' =>
          injection hs with h2
          subst h2
          exact targetInvariant_refl root
    | nil =>
      simp only [processStep] at hs
      cases hc : processList env children (p, p + l) root [] with
      | error e => rw [hc] at hs; exact absurd hs (by simp)
      | ok root' =>
        rw [hc] at hs
        injection hs with h2
        subst h2
        exact hrec children hlt (p, p + l) root [] root' hc
  | envNode en p l args children =>
    have hlt : sizeOf children < sizeOf (LNode.envNode en p l args children) := by
      simp <;> omega
    by_cases hen : en = "smodule"
    · subst hen
      simp only [processStep, if_pos rfl] at hs
      cases hm : args.mainArgs.head? with
      | none => rw [hm] at hs; exact absurd hs (by simp)
      | some rawName =>
        rw [hm] at hs
        simp only [] at hs
        cases hc : processList env children (p, p + l)
            (.mod (smoduleNewModule env root chain rawName p l args)) [] with
        | error e => rw [hc] at hs; exact absurd hs (by simp)
        | ok u =>
          rw [hc] at hs
          cases u with
          | doc ds ms => exact absurd hs (by simp)
          | mod newM' =>
            injection hs with h2
            subst h2
            exact targetInvariant_refl root
    · cases chain with
      | cons h t =>
        simp only [processStep, if_neg hen] at hs
        cases hc : processList env children (p, p + l) (.mod h) [] with
        | error e => rw [hc] at hs; exact absurd hs (by simp)
        | ok u =>
          rw [hc] at hs
          cases u with
          | doc ds ms => exact absurd hs (by simp)
          | mod h' =>
            injection hs with h2
            subst h2
            exact targetInvariant_refl root
      | nil =>
        simp only [processStep, if_neg hen] at hs
        cases hc : processList env children (p, p + l) root [] with
        | error e => rw [hc] at hs; exact absurd hs (by simp)
        | ok root' =>
          rw [hc] at hs
          injection hs with h2
          subst h2
          exact hrec children hlt (p, p + l) root [] root' hc
  | macroNode mn p l args =>
    cases hdp : dependencyProducerByMacroname mn with
    | some dp =>
      simp only [processStep, hdp] at hs
      cases hp : dp.produce args p l env.archiveName env.fromSubdir env.mh env.disk pr
          (langOfFileName env.fileName) with
      | error e => rw [hp] at hs; exact absurd hs (by simp)
      | ok o =>
        rw [hp] at hs
        cases o with
        | none =>
          injection hs with h2
          subst h2
          exact targetInvariant_refl root
        | some dep =>
          injection hs with h2
          subst h2
          exact attachDep_invariant root chain dep
    | none =>
      simp only [processStep, hdp] at hs
      by_cases hsym : symbolMacroNames.contains mn
      · rw [if_pos hsym] at hs
        cases he : extractSymbolVerbalization mn args with
        | error e => rw [he] at hs; exact absurd hs (by simp)
        | ok sv =>
          rw [he] at hs
          injection hs with h2
          subst h2
          exact attachSymbolHit_invariant root chain mn sv.1 sv.2 p l
      · rw [if_neg hsym] at hs
        injection hs with h2
        subst h2
        exact targetInvariant_refl root

theorem processList_invariant_bounded (env : PEnv) :
    ∀ (k : Nat) (ns : List LNode), sizeOf ns ≤ k →
      ∀ (pr : Nat × Nat) (root : PTarget) (chain : List ModuleInfo) (t : PTarget),
        processList env ns pr root chain = .ok t → targetInvariant root t := by
  intro k
  induction k with
  | zero =>
    intro ns h
    exact absurd h (by cases ns <;> simp)
  | succ k ih =>
    intro ns hsz pr root chain t ht
    match ns with
    | [] =>
      rw [processList.eq_1] at ht
      cases ht
      exact attachChain_invariant root chain
    | n :: rest =>
      rw [processList_cons] at ht
      cases hs : processStep env n pr root chain with
      | error e => rw [hs] at ht; exact absurd ht (by simp)
      | ok rc =>
        rw [hs] at ht
        simp only [] at ht
        have hszn : sizeOf n + sizeOf rest ≤ k := by
          have := hsz
          simp at this
          omega
        have h1 : targetInvariant root rc.1 := by
          refine processStep_ok_invariant env n pr root chain rc ?_ hs
          intro ns' hlt pr' root' chain' t' h'
          exact ih ns' (by omega) pr' root' chain' t' h'
        have h2 : targetInvariant rc.1 t := by
          refine ih rest (by omega) pr rc.1 rc.2 t ht
        exact targetInvariant_trans h1 h2

theorem processList_invariant (env : PEnv) (ns : List LNode) (pr : Nat × Nat)
    (root : PTarget) (chain : List ModuleInfo) (t : PTarget)
    (ht : processList env ns pr root chain = .ok t) : targetInvariant root t :=
  processList_invariant_bounded env (sizeOf ns) ns (Nat.le_refl _) pr root chain t ht


theorem produce_main_arg_none (dp : DependencyProducer) (args : ArgSpec)
    (p l : Nat) (fa fs : String) (mh : MathHub) (disk : Disk) (vr : Nat × Nat)
    (lang : String) (h : get_first_main_arg args = none) :
    dp.produce args p l fa fs mh disk vr lang = .ok none := by
  simp only [DependencyProducer.produce, h]

theorem depsFoldr_eq_join (ms : List ModuleInfo) :
    ms.foldr (fun sm acc => sm.dependencies ++ acc) []
      = (ms.map ModuleInfo.dependencies).join := by
  induction ms with
  | nil => rfl
  | cons m ms ih => simp [ih]

/-- C1: a dependency-producing macro invocation with a main argument whose
target archive is locally present is claimed to yield a best-effort
Dependency (archive set, file unset) when no file resolves.  The code instead
raises TypeError on this path: produce passes (path_option, top_dir, lang) to
Repository.normalize_tex_file_ref, whose definition only accepts
(path, directory).  At the concrete failing input below (importmodule with
main argument m from a document of the locally present archive A1, on a disk
with no files, so no candidate could resolve), produce raises instead of
returning the best-effort Dependency. -/
theorem claim_C1 :
    dependencyProducerByMacroname "importmodule" = some c1dp ∧
    c1mh.get_archive "A1" = some c1repo ∧
    c1dp.produce c1args 10 20 "A1" "sub/dir" c1mh exDisk (0, 100) "en"
      = .error .typeError :=
  ⟨rfl, rfl, rfl⟩

/-- C2: refresh (MathHub.update) is claimed to terminate normally and drop
registry entries whose backing root disappeared.  The code deletes from
archive_lookup while iterating over its values, so the next iterator step
raises RuntimeError: with archive Gone stored in the registry and no
repository roots left on disk, update raises instead of dropping the entry. -/
theorem claim_C2 :
    c2mh.archive_lookup = [("Gone", c2repo)] ∧
    exDisk.repoRoots = [] ∧
    c2mh.update exDisk = .error .runtimeError :=
  ⟨rfl, rfl, rfl⟩

/-- C6: invalidate_if_stale (delete_doc_info_if_outdated) discards the cached
DocInfo exactly when a cache exists and the file's modification time strictly
exceeds the stored timestamp; with an equal or smaller modification time, and
with an empty cache slot, the document is returned unchanged, and in every
case the path (the only other component of the document state) is
preserved. -/
theorem claim_C6 (d : STeXDocument) (disk : Disk) :
    ((d.delete_doc_info_if_outdated disk).path = d.path) ∧
    (d.docInfo = none → d.delete_doc_info_if_outdated disk = d) ∧
    (∀ di, d.docInfo = some di →
      (disk.mtimes d.path > di.last_modified →
        d.delete_doc_info_if_outdated disk = { d with docInfo := none }) ∧
      (disk.mtimes d.path ≤ di.last_modified →
        d.delete_doc_info_if_outdated disk = d)) := by
  refine ⟨?_, ?_, ?_⟩
  · cases hdi : d.docInfo with
    | none => simp [STeXDocument.delete_doc_info_if_outdated, hdi]
    | some di =>
      simp only [STeXDocument.delete_doc_info_if_outdated, hdi]
      by_cases hmt : disk.mtimes d.path > di.last_modified
      · rw [if_pos hmt]
      · rw [if_neg hmt]
  · intro hdi
    simp [STeXDocument.delete_doc_info_if_outdated, hdi]
  · intro di hdi
    constructor
    · intro hmt
      simp [STeXDocument.delete_doc_info_if_outdated, hdi, hmt]
    · intro hmt
      simp [STeXDocument.delete_doc_info_if_outdated, hdi, Nat.not_lt.mpr hmt]

theorem claim_C6_witness :
    ((exDocCached.delete_doc_info_if_outdated exDiskNewer).docInfo = none) ∧
    (exDocCached.delete_doc_info_if_outdated exDiskOlder = exDocCached) ∧
    ((exDocCached.delete_doc_info_if_outdated exDiskNewer).path = exDocCached.path) := by
  refine ⟨?_, ?_, ?_⟩
  · have h := (claim_C6 exDocCached exDiskNewer).2.2 exDocInfo rfl
    rw [h.1 (by decide)]
  · exact (claim_C6 exDocCached exDiskOlder).2.2 exDocInfo rfl |>.2 (by decide)
  · exact (claim_C6 exDocCached exDiskNewer).1

/-- C7: analysis is idempotent: when create_doc_info succeeds, re-running it
on the resulting document state (same path, same parse, same modification
time, same hub) returns exactly the same document state, so the recomputed
DocInfo is equal to the previous one in all fields. -/
theorem claim_C7 (d : STeXDocument) (arch : Repository) (mh : MathHub)
    (disk : Disk) (d1 : STeXDocument)
    (h : d.create_doc_info arch mh disk = .ok d1) :
    d1.create_doc_info arch mh disk = .ok d1 := by
  cases d with
  | mk p ci =>
    simp only [STeXDocument.create_doc_info] at h ⊢
    cases hc : createDocInfoCore p arch mh disk with
    | error e => rw [hc] at h; exact absurd h (by simp)
    | ok info =>
      rw [hc] at h
      injection h with h2
      subst h2
      simp only []
      rw [hc]

theorem claim_C7_witness :
    ((⟨"/mh/A1/source/d.en.tex", none⟩ : STeXDocument).create_doc_info c1repo c1mh exDisk
      = .ok ⟨"/mh/A1/source/d.en.tex", some { last_modified := 0 }⟩) ∧
    ((⟨"/mh/A1/source/d.en.tex", some { last_modified := 0 }⟩ : STeXDocument).create_doc_info
        c1repo c1mh exDisk
      = .ok ⟨"/mh/A1/source/d.en.tex", some { last_modified := 0 }⟩) := by
  have h1 : (⟨"/mh/A1/source/d.en.tex", none⟩ : STeXDocument).create_doc_info c1repo c1mh exDisk
      = .ok ⟨"/mh/A1/source/d.en.tex", some { last_modified := 0 }⟩ := by
    simp [STeXDocument.create_doc_info, createDocInfoCore, processList, attachChain, exDisk]
  exact ⟨h1, claim_C7 _ c1repo c1mh exDisk _ h1⟩

/-- C8: flattened_dependencies of a module (and of a document) yields exactly
the node's own dependencies followed by the own dependencies of its immediate
submodules (respectively top-level modules), one level deep: on the concrete
three-level example, the grand-submodule's dependency is present in the
grandchild but absent from the flattening. -/
theorem claim_C8 :
    (∀ m : ModuleInfo, m.flattened_dependencies
        = m.dependencies ++ (m.modules.map ModuleInfo.dependencies).join) ∧
    (∀ d : DocInfo, d.flattened_dependencies
        = d.dependencies ++ (d.modules.map ModuleInfo.dependencies).join) ∧
    c8top.flattened_dependencies = [{ archive := "a0" }, { archive := "a1" }] ∧
    c8grand.dependencies = [{ archive := "a2" }] ∧
    ({ archive := "a2" } : Dependency) ∉ c8top.flattened_dependencies := by
  refine ⟨?_, ?_, rfl, rfl, by decide⟩
  · intro m
    rw [ModuleInfo.flattened_dependencies, depsFoldr_eq_join]
  · intro d
    rw [DocInfo.flattened_dependencies, depsFoldr_eq_join]

/-- C9: a recognized dependency-producing macro whose main argument is absent
produces no Dependency, and removing the malformed invocation from a node
list leaves the entire analysis of the surrounding scope unchanged whatever
precedes or follows it. -/
theorem claim_C9 (env : PEnv) (mn : String) (p l : Nat) (args : ArgSpec)
    (dp : DependencyProducer)
    (hdp : dependencyProducerByMacroname mn = some dp)
    (hmain : get_first_main_arg args = none) :
    ∀ (pre post : List LNode) (pr : Nat × Nat) (root : PTarget)
      (chain : List ModuleInfo),
      processList env (pre ++ .macroNode mn p l args :: post) pr root chain
        = processList env (pre ++ post) pr root chain := by
  have hstep : ∀ (pr : Nat × Nat) (root : PTarget) (chain : List ModuleInfo),
      processStep env (.macroNode mn p l args) pr root chain = .ok (root, chain) := by
    intro pr root chain
    have hp := produce_main_arg_none dp args p l env.archiveName env.fromSubdir
      env.mh env.disk pr (langOfFileName env.fileName) hmain
    simp only [processStep, hdp, hp]
  intro pre
  induction pre with
  | nil =>
    intro post pr root chain
    simp only [List.nil_append]
    rw [processList_cons, hstep]
  | cons nd pre ih =>
    intro post pr root chain
    simp only [List.cons_append]
    rw [processList_cons, processList_cons]
    cases processStep env nd pr root chain with
    | error e => rfl
    | ok rc => exact ih post pr rc.1 rc.2

theorem claim_C9_witness :
    dependencyProducerByMacroname "importmodule" = some c1dp ∧
    get_first_main_arg ({} : ArgSpec) = none ∧
    processList
        { mh := c1mh, disk := exDisk, archiveName := "A1", fromSubdir := "d.en.tex",
          fileName := "d.en.tex", docDir := "/mh/A1/source" }
        ([.charsNode 0 3] ++ .macroNode "importmodule" 3 7 {} :: [.charsNode 10 2])
        (0, 12) (.doc [] []) []
      = processList
        { mh := c1mh, disk := exDisk, archiveName := "A1", fromSubdir := "d.en.tex",
          fileName := "d.en.tex", docDir := "/mh/A1/source" }
        ([.charsNode 0 3] ++ [.charsNode 10 2]) (0, 12) (.doc [] []) [] :=
  ⟨rfl, rfl, claim_C9 _ "importmodule" 3 7 {} c1dp rfl rfl [.charsNode 0 3]
    [.charsNode 10 2] (0, 12) (.doc [] []) []⟩

/-- C10: get_doc_info with a populated cache returns the cached DocInfo and
leaves the document state untouched, for every disk state: no staleness check
is performed on read access even when the file's modification time exceeds
the stored timestamp. -/
theorem claim_C10 (d : STeXDocument) (arch : Repository) (mh : MathHub)
    (disk : Disk) (di : DocInfo) (h : d.docInfo = some di) :
    d.get_doc_info arch mh disk = .ok (di, d) := by
  cases d with
  | mk p ci =>
    simp only [STeXDocument.docInfo] at h
    subst h
    simp only [STeXDocument.get_doc_info]

theorem claim_C10_witness :
    exDocCached.get_doc_info c1repo c1mh exDiskNewer = .ok (exDocInfo, exDocCached) ∧
    exDiskNewer.mtimes exDocCached.path > exDocInfo.last_modified :=
  ⟨claim_C10 exDocCached c1repo c1mh exDiskNewer exDocInfo rfl, by decide⟩


theorem symHit_step (env : PEnv) (s : String) (h : SymHit) (pr : Nat × Nat)
    (M : ModuleInfo) :
    processStep env (symHitNode s h) pr (.mod M) [] =
      .ok (.mod (addSymbolHit M (symHitMacroname h) s (symHitVerbStr s h)
        h.pos h.len), []) := by
  cases h <;> rfl

theorem symHitVerb_eq (s : String) (h : SymHit) :
    (symHitVerbStr s h, h.pos, h.pos + h.len) = symHitVerb s h := by
  cases h <;> rfl

theorem addSymbolHit_existing (nm : String) (deps : List Dependency) (s : String)
    (vs : List (String × Nat × Nat)) (dd : Option (Nat × Nat)) (h : SymHit) :
    addSymbolHit (.mk nm deps [⟨s, vs, dd⟩] []) (symHitMacroname h) s
        (symHitVerbStr s h) h.pos h.len
      = .mk nm deps [⟨s, vs ++ [symHitVerb s h], dd⟩] [] := by
  rw [← symHitVerb_eq s h]
  simp [addSymbolHit, addVerbalizationByName, ModuleInfo.withSymbols,
    ModuleInfo.symbols, ModuleInfo.name, ModuleInfo.dependencies, ModuleInfo.modules,
    Symbol.name]

theorem addSymbolHit_fresh (nm : String) (deps : List Dependency) (s : String)
    (h : SymHit) :
    addSymbolHit (.mk nm deps [] []) (symHitMacroname h) s
        (symHitVerbStr s h) h.pos h.len
      = .mk nm deps [⟨s, [symHitVerb s h], expectedDeclSpan [h]⟩] [] := by
  cases h <;> rfl

theorem symHits_accumulate (env : PEnv) (s : String) :
    ∀ (hits : List SymHit) (pr : Nat × Nat) (nm : String) (deps : List Dependency)
      (vs : List (String × Nat × Nat)) (dd : Option (Nat × Nat)),
      processList env (hits.map (symHitNode s)) pr
          (.mod (.mk nm deps [⟨s, vs, dd⟩] [])) []
        = .ok (.mod (.mk nm deps [⟨s, vs ++ hits.map (symHitVerb s), dd⟩] [])) := by
  intro hits
  induction hits with
  | nil =>
    intro pr nm deps vs dd
    rw [List.map_nil, processList.eq_1, attachChain.eq_1]
    simp
  | cons h hits ih =>
    intro pr nm deps vs dd
    rw [List.map_cons, processList_cons, symHit_step]
    simp only []
    rw [addSymbolHit_existing]
    rw [ih pr nm deps (vs ++ [symHitVerb s h]) dd]
    simp

/-- Helper: one successful walk step rewrites the list walk to its tail with
the updated state. -/
theorem processList_cons_ok {env : PEnv} {n : LNode} {rest : List LNode}
    {pr : Nat × Nat} {root t : PTarget} {chain ch : List ModuleInfo}
    (h : processStep env n pr root chain = .ok (t, ch)) :
    processList env (n :: rest) pr root chain = processList env rest pr t ch := by
  rw [processList_cons, h]

/-- Helper: the step of an smodule environment node whose children walk
succeeds pushes the finished module onto the chain. -/
theorem processStep_smodule (env : PEnv) (nm : String) (optA : Option String)
    (kvs : Option (List (String × String))) (children : List LNode)
    (p l : Nat) (pr : Nat × Nat) (root : PTarget) (chain : List ModuleInfo)
    (M' : ModuleInfo)
    (h : processList env children (p, p + l)
      (.mod (smoduleNewModule env root chain nm p l ⟨optA, kvs, [nm]⟩)) []
      = .ok (.mod M')) :
    processStep env (.envNode "smodule" p l ⟨optA, kvs, [nm]⟩ children) pr root chain
      = .ok (root, M' :: chain) := by
  simp only [processStep, eq_self_iff_true, if_true, List.head?_cons]
  rw [h]

/-- Helper: createDocInfoCore in terms of a successful document walk. -/
theorem createDocInfoCore_ok (path : String) (arch : Repository) (mh : MathHub)
    (disk : Disk) (deps : List Dependency) (mods : List ModuleInfo)
    (h : processList (docWalkEnv path arch mh disk) (disk.parsed path).1
      (0, (disk.parsed path).2) (.doc [] []) [] = .ok (.doc deps mods)) :
    createDocInfoCore path arch mh disk
      = .ok { last_modified := disk.mtimes path, dependencies := deps,
              modules := mods } := by
  simp only [createDocInfoCore]
  rw [h]

/-- Helper: create_doc_info in terms of a successful core computation. -/
theorem create_doc_info_ok (d : STeXDocument) (arch : Repository) (mh : MathHub)
    (disk : Disk) (info : DocInfo)
    (h : createDocInfoCore d.path arch mh disk = .ok info) :
    d.create_doc_info arch mh disk = .ok { d with docInfo := some info } := by
  simp only [STeXDocument.create_doc_info]
  rw [h]

/-- C3 (amended): within one module, a sequence of symbol-macro hits on one
symbol name produces exactly one Symbol whose verbalization list accumulates
one entry per hit in order; its declaration span is set only when the Symbol
is created, i.e. it equals the first hit's span when that first hit is a
declaring form (symdef/symdecl) and stays unset otherwise — a declaring
occurrence arriving after a referencing one never sets it. -/
theorem claim_C3_amended (env : PEnv) (s nm : String) (hits : List SymHit)
    (p l n : Nat) :
    processList env
        [.envNode "smodule" p l { mainArgs := [nm] } (hits.map (symHitNode s))]
        (0, n) (.doc [] []) []
      = .ok (.doc [] [.mk nm [] (expectedSymbols s hits) []]) := by
  have hnew : smoduleNewModule env (.doc [] []) [] nm p l { mainArgs := [nm] }
      = .mk nm [] [] [] := rfl
  have hchild : processList env (hits.map (symHitNode s)) (p, p + l)
      (.mod (.mk nm [] [] [])) []
      = .ok (.mod (.mk nm [] (expectedSymbols s hits) [])) := by
    cases hits with
    | nil =>
      rw [List.map_nil, processList.eq_1, attachChain.eq_1]
      rfl
    | cons h hits' =>
      rw [List.map_cons,
        processList_cons_ok (symHit_step env s h (p, p + l) (.mk nm [] [] [])),
        addSymbolHit_fresh,
        symHits_accumulate env s hits' (p, p + l) nm [] [symHitVerb s h]
          (expectedDeclSpan [h])]
      rfl
  have hstep : processStep env
      (.envNode "smodule" p l { mainArgs := [nm] } (hits.map (symHitNode s)))
      (0, n) (.doc [] []) []
      = .ok (.doc [] [], [.mk nm [] (expectedSymbols s hits) []]) := by
    simp only [processStep, eq_self_iff_true, if_true, List.head?_cons, hnew]
    rw [hchild]
  rw [processList_cons_ok hstep, processList.eq_1, attachChain.eq_2]
  rfl

/-- C3 (counterexample): a referencing hit (definiendum, span (5, 15)) followed
by a declaring hit (symdef, span (20, 30)) on the same symbol name x inside
one module yields one Symbol with two verbalizations whose declaration span
is unset; the claim as stated predicts it to equal the span (20, 30) of the
first declaring occurrence. -/
theorem claim_C3_counterexample :
    processList exEnv
        [.envNode "smodule" 0 50 { mainArgs := ["mm"] }
          [.macroNode "definiendum" 5 10 { mainArgs := ["x", "ex"] },
           .macroNode "symdef" 20 10 { mainArgs := ["x"] }]]
        (0, 100) (.doc [] []) []
      = .ok (.doc [] [.mk "mm" []
          [{ name := "x", verbalizations := [("ex", 5, 15), ("x", 20, 30)],
             decl_def := none }] []]) ∧
    (none : Option (Nat × Nat)) ≠ some (20, 30) := by
  constructor
  · have h1 : processStep exEnv
        (.macroNode "definiendum" 5 10 { mainArgs := ["x", "ex"] })
        (0, 0 + 50) (.mod (.mk "mm" [] [] [])) []
        = .ok (.mod (.mk "mm" []
            [{ name := "x", verbalizations := [("ex", 5, 15)],
               decl_def := none }] []), []) := rfl
    have h2 : processStep exEnv
        (.macroNode "symdef" 20 10 { mainArgs := ["x"] })
        (0, 0 + 50) (.mod (.mk "mm" []
          [{ name := "x", verbalizations := [("ex", 5, 15)],
             decl_def := none }] [])) []
        = .ok (.mod (.mk "mm" []
            [{ name := "x", verbalizations := [("ex", 5, 15), ("x", 20, 30)],
               decl_def := none }] []), []) := rfl
    have h3 : processList exEnv
        [.macroNode "definiendum" 5 10 { mainArgs := ["x", "ex"] },
         .macroNode "symdef" 20 10 { mainArgs := ["x"] }]
        (0, 0 + 50) (.mod (.mk "mm" [] [] [])) []
        = .ok (.mod (.mk "mm" []
            [{ name := "x", verbalizations := [("ex", 5, 15), ("x", 20, 30)],
               decl_def := none }] [])) := by
      rw [processList_cons_ok h1, processList_cons_ok h2,
        processList.eq_1, attachChain.eq_1]
    have hstep := processStep_smodule exEnv "mm" none none
      [.macroNode "definiendum" 5 10 { mainArgs := ["x", "ex"] },
       .macroNode "symdef" 20 10 { mainArgs := ["x"] }]
      0 50 (0, 100) (.doc [] []) []
      (.mk "mm" []
        [{ name := "x", verbalizations := [("ex", 5, 15), ("x", 20, 30)],
           decl_def := none }] []) h3
    rw [processList_cons_ok hstep, processList.eq_1, attachChain.eq_2]
    rfl
  · decide


theorem sigDependencies_eq (env : PEnv) (nm sv : String)
    (kvs : List (String × String)) (optA : Option String) (p l : Nat)
    (hsig : keyValsGetVal kvs "sig" = some sv) (hsv : sv ≠ "") :
    sigDependencies env ⟨optA, some kvs, [nm]⟩ nm p l
      = [expectedSigDep env nm sv p l] := by
  simp only [sigDependencies, optArgKeyValsFromFirstMacroArg, hsig, expectedSigDep]
  rw [if_neg hsv]
  by_cases hlen : 2 < (pySplit env.fileName '.').length
  · by_cases hc : env.disk.files.contains (env.docDir ++ "/" ++
      String.intercalate "." ((pySplit env.fileName '.').set
        ((pySplit env.fileName '.').length - 2) sv))
    · simp [hlen, hc]
    · simp [hlen, hc]
  · simp [hlen, Nat.not_lt.mp]

/-- C4 (amended): a module environment carrying a non-empty sig parameter
attaches, as the module's first dependency, one same-archive Dependency
named after the module whose valid and intro ranges are the environment's
own span; its file is the full posix path of the sibling file obtained by
substituting the sig language tag into the second-to-last dot-separated
component of the document's filename when the filename has more than two
components and that sibling exists on disk, and is unset otherwise.  (The
claim as stated instead calls the file a path relative to the archive's
source or lib tree, which the counterexample refutes.) -/
theorem claim_C4_amended (env : PEnv) (nm sv : String)
    (kvs : List (String × String)) (optA : Option String) (body : List LNode)
    (p l n : Nat) (M' : ModuleInfo)
    (hsig : keyValsGetVal kvs "sig" = some sv) (hsv : sv ≠ "")
    (hbody : processList env body (p, p + l)
      (.mod (.mk nm [expectedSigDep env nm sv p l] [] [])) [] = .ok (.mod M')) :
    processList env [.envNode "smodule" p l ⟨optA, some kvs, [nm]⟩ body]
        (0, n) (.doc [] []) []
      = .ok (.doc [] [M']) ∧
    M'.name = nm ∧
    M'.dependencies.head? = some (expectedSigDep env nm sv p l) := by
  have hnew : smoduleNewModule env (.doc [] []) [] nm p l ⟨optA, some kvs, [nm]⟩
      = .mk nm [expectedSigDep env nm sv p l] [] [] := by
    simp only [smoduleNewModule, currentModuleName]
    rw [sigDependencies_eq env nm sv kvs optA p l hsig hsv]
  have hstep : processStep env
      (.envNode "smodule" p l ⟨optA, some kvs, [nm]⟩ body) (0, n) (.doc [] []) []
      = .ok (.doc [] [], [M']) := by
    simp only [processStep, eq_self_iff_true, if_true, List.head?_cons, hnew]
    rw [hbody]
  refine ⟨?_, ?_, ?_⟩
  · rw [processList_cons_ok hstep, processList.eq_1, attachChain.eq_2]
    rfl
  · obtain ⟨m', heq, hname, ext, hdeps⟩ :=
      processList_invariant env body (p, p + l)
        (.mod (.mk nm [expectedSigDep env nm sv p l] [] [])) [] (.mod M') hbody
    injection heq with heq2
    subst heq2
    exact hname
  · obtain ⟨m', heq, hname, ext, hdeps⟩ :=
      processList_invariant env body (p, p + l)
        (.mod (.mk nm [expectedSigDep env nm sv p l] [] [])) [] (.mod M') hbody
    injection heq with heq2
    subst heq2
    rw [hdeps]
    rfl

theorem claim_C4_witness :
    processList (docWalkEnv c4doc.path c4arch c4mh c4disk)
        [.envNode "smodule" 0 40 ⟨none, some [("sig", "en")], ["set"]⟩ []]
        (0, 90) (.doc [] []) []
      = .ok (.doc [] [.mk "set" [c4sigdep] [] []]) ∧
    (ModuleInfo.mk "set" [c4sigdep] [] []).name = "set" ∧
    (ModuleInfo.mk "set" [c4sigdep] [] []).dependencies.head? = some c4sigdep := by
  have h := claim_C4_amended (docWalkEnv c4doc.path c4arch c4mh c4disk) "set" "en"
    [("sig", "en")] none [] 0 40 90 (.mk "set" [c4sigdep] [] []) rfl (by decide)
    (by rw [processList.eq_1, attachChain.eq_1]; rfl)
  exact ⟨h.1, h.2.1, h.2.2⟩

/-- C4 (counterexample): for set.de.tex with an smodule carrying sig=en and
an existing sibling set.en.tex, the produced signature Dependency's file is
the sibling's full path /mh/MyArchive/source/set.en.tex, not the path
set.en.tex relative to the archive's source tree that the claim asserts. -/
theorem claim_C4_counterexample :
    c4doc.create_doc_info c4arch c4mh c4disk
      = .ok { path := "/mh/MyArchive/source/set.de.tex",
              docInfo := some { last_modified := 42, dependencies := [],
                                modules := [.mk "set" [c4sigdep] [] []] } } ∧
    c4sigdep.file = some "/mh/MyArchive/source/set.en.tex" ∧
    c4sigdep.file ≠ some "set.en.tex" := by
  refine ⟨?_, rfl, by decide⟩
  have h1 := processStep_smodule (docWalkEnv c4doc.path c4arch c4mh c4disk) "set"
    none (some [("sig", "en")]) [] 0 40 (0, 90) (.doc [] []) []
    (.mk "set" [c4sigdep] [] [])
    (by rw [processList.eq_1, attachChain.eq_1]; rfl)
  have hwalk : processList (docWalkEnv c4doc.path c4arch c4mh c4disk)
      (c4disk.parsed c4doc.path).1 (0, (c4disk.parsed c4doc.path).2) (.doc [] []) []
      = .ok (.doc [] [.mk "set" [c4sigdep] [] []]) := by
    rw [show (c4disk.parsed c4doc.path).1
        = [.envNode "smodule" 0 40
            { keyvals := some [("sig", "en")], mainArgs := ["set"] } []] from rfl]
    rw [show (c4disk.parsed c4doc.path).2 = 90 from rfl]
    rw [processList_cons_ok h1, processList.eq_1, attachChain.eq_2]
    rfl
  have hcore := createDocInfoCore_ok c4doc.path c4arch c4mh c4disk []
    [.mk "set" [c4sigdep] [] []] hwalk
  exact create_doc_info_ok c4doc c4arch c4mh c4disk _ hcore


theorem string_length_ne_of_proper_ext (a b c : String) :
    a ≠ a ++ "/" ++ b ++ "/" ++ c ∧ a ++ "/" ++ b ≠ a ++ "/" ++ b ++ "/" ++ c := by
  have hs : ("/" : String).length = 1 := rfl
  constructor
  · intro h
    have h2 := congrArg String.length h
    simp only [String.length_append, hs] at h2
    omega
  · intro h
    have h2 := congrArg String.length h
    simp only [String.length_append, hs] at h2
    omega

/-- C5: a document declaring module a containing submodule b containing
submodule c (with arbitrary further content inside c whose processing
succeeds) analyses to the module tree with fully qualified names a, a/b and
a/b/c, and a depth-first module search for a/b/c on the resulting DocInfo
returns exactly the innermost submodule. -/
theorem claim_C5 (env : PEnv) (a b c : String) (body : List LNode)
    (pa la pb lb pc lc n mt : Nat) (C' : ModuleInfo)
    (hbody : processList env body (pc, pc + lc)
      (.mod (.mk (a ++ "/" ++ b ++ "/" ++ c) [] [] [])) [] = .ok (.mod C')) :
    processList env
        [.envNode "smodule" pa la { mainArgs := [a] }
          [.envNode "smodule" pb lb { mainArgs := [b] }
            [.envNode "smodule" pc lc { mainArgs := [c] } body]]]
        (0, n) (.doc [] []) []
      = .ok (.doc [] [.mk a [] [] [.mk (a ++ "/" ++ b) [] [] [C']]]) ∧
    C'.name = a ++ "/" ++ b ++ "/" ++ c ∧
    (DocInfo.mk mt [] [.mk a [] [] [.mk (a ++ "/" ++ b) [] [] [C']]]).get_module
        (a ++ "/" ++ b ++ "/" ++ c) = some C' := by
  obtain ⟨m', heq, hname, ext, hdeps⟩ :=
    processList_invariant env body (pc, pc + lc)
      (.mod (.mk (a ++ "/" ++ b ++ "/" ++ c) [] [] [])) [] (.mod C') hbody
  injection heq with heq2
  subst heq2
  have hBchildren : processList env
      [.envNode "smodule" pc lc { mainArgs := [c] } body] (pb, pb + lb)
      (.mod (.mk (a ++ "/" ++ b) [] [] [])) []
      = .ok (.mod (.mk (a ++ "/" ++ b) [] [] [C'])) := by
    have hstepC : processStep env (.envNode "smodule" pc lc { mainArgs := [c] } body)
        (pb, pb + lb) (.mod (.mk (a ++ "/" ++ b) [] [] [])) []
        = .ok (.mod (.mk (a ++ "/" ++ b) [] [] []), [C']) := by
      simp only [processStep, eq_self_iff_true, if_true, List.head?_cons]
      rw [show smoduleNewModule env (.mod (.mk (a ++ "/" ++ b) [] [] [])) [] c pc lc
          { mainArgs := [c] } = .mk (a ++ "/" ++ b ++ "/" ++ c) [] [] [] from rfl]
      rw [hbody]
    rw [processList_cons_ok hstepC, processList.eq_1, attachChain.eq_2]
    rfl
  have hAchildren : processList env
      [.envNode "smodule" pb lb { mainArgs := [b] }
        [.envNode "smodule" pc lc { mainArgs := [c] } body]] (pa, pa + la)
      (.mod (.mk a [] [] [])) []
      = .ok (.mod (.mk a [] [] [.mk (a ++ "/" ++ b) [] [] [C']])) := by
    have hstepB : processStep env
        (.envNode "smodule" pb lb { mainArgs := [b] }
          [.envNode "smodule" pc lc { mainArgs := [c] } body])
        (pa, pa + la) (.mod (.mk a [] [] [])) []
        = .ok (.mod (.mk a [] [] []), [.mk (a ++ "/" ++ b) [] [] [C']]) := by
      simp only [processStep, eq_self_iff_true, if_true, List.head?_cons]
      rw [show smoduleNewModule env (.mod (.mk a [] [] [])) [] b pb lb
          { mainArgs := [b] } = .mk (a ++ "/" ++ b) [] [] [] from rfl]
      rw [hBchildren]
    rw [processList_cons_ok hstepB, processList.eq_1, attachChain.eq_2]
    rfl
  have hstepA : processStep env
      (.envNode "smodule" pa la { mainArgs := [a] }
        [.envNode "smodule" pb lb { mainArgs := [b] }
          [.envNode "smodule" pc lc { mainArgs := [c] } body]])
      (0, n) (.doc [] []) []
      = .ok (.doc [] [], [.mk a [] [] [.mk (a ++ "/" ++ b) [] [] [C']]]) := by
    simp only [processStep, eq_self_iff_true, if_true, List.head?_cons]
    rw [show smoduleNewModule env (.doc [] []) [] a pa la { mainArgs := [a] }
        = .mk a [] [] [] from rfl]
    rw [hAchildren]
  obtain ⟨hne1, hne2⟩ := string_length_ne_of_proper_ext a b c
  refine ⟨?_, ?_, ?_⟩
  · rw [processList_cons_ok hstepA, processList.eq_1, attachChain.eq_2]
    rfl
  · exact hname
  · cases C' with
    | mk cn cd cs cm =>
      simp only [ModuleInfo.name] at hname
      subst hname
      simp only [DocInfo.get_module, DocInfo.iter_modules, iterModulesList,
        ModuleInfo.iter_modules, List.append_nil]
      have hb1 : ((ModuleInfo.mk a [] [] [.mk (a ++ "/" ++ b) [] []
          [.mk (a ++ "/" ++ b ++ "/" ++ c) cd cs cm]]).name
          == a ++ "/" ++ b ++ "/" ++ c) = false := by
        simp only [ModuleInfo.name, beq_eq_false_iff_ne, ne_eq]
        exact hne1
      have hb2 : ((ModuleInfo.mk (a ++ "/" ++ b) [] []
          [.mk (a ++ "/" ++ b ++ "/" ++ c) cd cs cm]).name
          == a ++ "/" ++ b ++ "/" ++ c) = false := by
        simp only [ModuleInfo.name, beq_eq_false_iff_ne, ne_eq]
        exact hne2
      have hb3 : ((ModuleInfo.mk (a ++ "/" ++ b ++ "/" ++ c) cd cs cm).name
          == a ++ "/" ++ b ++ "/" ++ c) = true := by
        simp only [ModuleInfo.name, beq_iff_eq]
      simp only [List.find?, hb1, hb2, hb3]

theorem claim_C5_witness :
    processList exEnv
        [.envNode "smodule" 0 90 { mainArgs := ["A"] }
          [.envNode "smodule" 5 80 { mainArgs := ["B"] }
            [.envNode "smodule" 10 70 { mainArgs := ["C"] } [.charsNode 15 3]]]]
        (0, 100) (.doc [] []) []
      = .ok (.doc [] [.mk "A" [] [] [.mk "A/B" [] [] [.mk "A/B/C" [] [] []]]]) ∧
    (DocInfo.mk 7 [] [.mk "A" [] [] [.mk "A/B" [] [] [.mk "A/B/C" [] [] []]]]).get_module
        "A/B/C" = some (.mk "A/B/C" [] [] []) := by
  have hchars : processStep exEnv (.charsNode 15 3) (10, 10 + 70)
      (.mod (.mk ("A" ++ "/" ++ "B" ++ "/" ++ "C") [] [] [])) []
      = .ok (.mod (.mk ("A" ++ "/" ++ "B" ++ "/" ++ "C") [] [] []), []) := rfl
  have h := claim_C5 exEnv "A" "B" "C" [.charsNode 15 3] 0 90 5 80 10 70 100 7
    (.mk "A/B/C" [] [] [])
    (by rw [processList_cons_ok hchars, processList.eq_1, attachChain.eq_1]; rfl)
  exact ⟨h.1, h.2.2⟩

end Stextools
